import Mathlib

/-!
Verification development for the YouTube metadata-generation pipeline
(`ai_generator.py`).  Python strings are modelled as `List Char`; the
external collaborators (OpenCV video capture, the generative-model client)
are modelled as explicit oracles supplied through environment structures,
with fallible calls returning `Except Unit`.
-/

namespace YtAuto

/-- Character list of a string literal (a Python `str` value). -/
def pyOf (s : String) : List Char := s.data

/-- ASCII whitespace test used by Python `str.strip` / `str.split`. -/
def pyIsSpace (c : Char) : Bool :=
  c == Char.ofNat 32 || c == Char.ofNat 9 || c == Char.ofNat 10 ||
  c == Char.ofNat 13 || c == Char.ofNat 11 || c == Char.ofNat 12

/-- Python `str.strip()` — drop leading and trailing whitespace. -/
def pyStrip (l : List Char) : List Char :=
  ((l.dropWhile pyIsSpace).reverse.dropWhile pyIsSpace).reverse

/-- Python `str.startswith(pat)`. -/
def pyStartsWith : List Char → List Char → Bool
  | [], _ => true
  | _ :: _, [] => false
  | a :: p, b :: l => a == b && pyStartsWith p l

/-- Split a character list at every separator chosen by `p`,
keeping empty chunks (the behaviour of Python `str.split(sep)`). -/
def splitOnPred (p : Char → Bool) : List Char → List (List Char)
  | [] => [[]]
  | c :: rest =>
    let r := splitOnPred p rest
    if p c then [] :: r else (c :: r.headD []) :: r.tail

/-- Python `str.split(sep)` for a one-character separator. -/
def splitOnChar (c : Char) (l : List Char) : List (List Char) :=
  splitOnPred (fun x => x == c) l

/-- Python `str.split()` with no argument: split on whitespace runs,
discarding empty chunks. -/
def pySplitWs (l : List Char) : List (List Char) :=
  (splitOnPred pyIsSpace l).filter (fun t => !t.isEmpty)

/-- Fuel-driven core of Python `str.replace(pat, "")`: delete every
(left-to-right, non-overlapping) occurrence of `pat`. -/
def replaceAllF (pat : List Char) : Nat → List Char → List Char
  | 0, l => l
  | _ + 1, [] => []
  | n + 1, a :: rest =>
    if pyStartsWith pat (a :: rest) && !pat.isEmpty then
      replaceAllF pat n (rest.drop (pat.length - 1))
    else
      a :: replaceAllF pat n rest

/-- Python `str.replace(pat, "")` — deletes all occurrences of `pat`. -/
def pyReplaceAll (pat l : List Char) : List Char :=
  replaceAllF pat l.length l

def newlineChar : Char := Char.ofNat 10
def commaChar : Char := Char.ofNat 44
def dquoteChar : Char := Char.ofNat 34
def squoteChar : Char := Char.ofNat 39

/-- The `"Hashtags:"` label scanned for in `generate_complete_metadata`. -/
def hashLabel : List Char := pyOf "Hashtags:"

/-- The `"Keywords:"` label scanned for in `generate_complete_metadata`. -/
def kwLabel : List Char := pyOf "Keywords:"

/-- The hash marker tested by the token filter of the hashtag line. -/
def hashMark : List Char := pyOf "#"

/-- The mutable triple `(hashtags, keywords, tags)` of the extraction loop
in `generate_complete_metadata` (initialised to three empty lists). -/
structure ParseState where
  hashtags : List (List Char)
  keywords : List (List Char)
  tags : List (List Char)
  deriving DecidableEq, Repr

def initState : ParseState := ⟨[], [], []⟩

/-- Tokens of a hashtag line: the label is deleted everywhere, the rest
is trimmed and whitespace-split, tokens starting with the hash marker
are kept and each is trimmed (the comprehension at line 171). -/
def tagOfLine (l : List Char) : List (List Char) :=
  ((pySplitWs (pyStrip (pyReplaceAll hashLabel l))).filter
      (fun t => pyStartsWith hashMark t)).map pyStrip

/-- Terms of a keyword line: the label is deleted everywhere, the rest
is trimmed, comma-split and each segment trimmed (line 174). -/
def kwOfLine (l : List Char) : List (List Char) :=
  (splitOnChar commaChar (pyStrip (pyReplaceAll kwLabel l))).map pyStrip

/-- Body of the `for line in description_lines` loop of
`generate_complete_metadata` (lines 168–176 of `ai_generator.py`). -/
def processLine (st : ParseState) (l : List Char) : ParseState :=
  if pyStartsWith hashLabel l then
    { st with hashtags := tagOfLine l }
  else if pyStartsWith kwLabel l then
    { st with keywords := kwOfLine l, tags := (kwOfLine l).take 15 }
  else
    st

/-- Split the description on newlines and run the extraction loop. -/
def parseDescription (d : List Char) : ParseState :=
  List.foldl processLine initState (splitOnChar newlineChar d)

/-- Oracle for one opened `cv2.VideoCapture` handle over frame type `α`:
`frameCount` models `int(cap.get(cv2.CAP_PROP_FRAME_COUNT))`, `seekRead`
models `cap.set(cv2.CAP_PROP_POS_FRAMES, n)` followed by `cap.read()`
(`Except.ok none` is `ret == False`), and `convert` models the
`cvtColor` / `Image.fromarray` / `resize` chain.  `Except.error` is a
raised exception. -/
structure FrameEnv (α : Type) where
  frameCount : Except Unit Nat
  seekRead : Nat → Except Unit (Option α)
  convert : α → Except Unit α

/-- The `for i in range(num_frames)` loop of `extract_video_frames`,
over the remaining index list, accumulating `frames`. -/
def extractLoopIdx {α : Type} (env : FrameEnv α) (fc nf : Nat) :
    List Nat → List α → Except Unit (List α)
  | [], acc => Except.ok acc
  | i :: is, acc =>
    match env.seekRead ((i + 1) * fc / (nf + 1)) with
    | Except.error e => Except.error e
    | Except.ok none => extractLoopIdx env fc nf is acc
    | Except.ok (some fr) =>
      match env.convert fr with
      | Except.error e => Except.error e
      | Except.ok f => extractLoopIdx env fc nf is (acc ++ [f])

/-- Model of extract_video_frames (lines 26–53).  The second component records
whether `cap.release()` was executed: the source calls it only on the
normal path (line 48); the broad `except` returns `[]` without
releasing. -/
def extract_video_frames {α : Type} (env : FrameEnv α) (num_frames : Nat) :
    List α × Bool :=
  match env.frameCount with
  | Except.error _ => ([], false)
  | Except.ok fc =>
    match extractLoopIdx env fc num_frames (List.range num_frames) [] with
    | Except.ok frames => (frames, true)
    | Except.error _ => ([], false)

/-- Model of analyze_video_content (lines 55–81).  `model` is the
`self.model.generate_content([prompt, frame])` call followed by
`response.text` access (`Except.error` = any raised exception).  The
second component records whether the model was invoked. -/
def analyze_video_content {α : Type} (env : FrameEnv α)
    (model : α → Except Unit (List Char)) : List Char × Bool :=
  match (extract_video_frames env 2).1 with
  | [] => (pyOf "Unable to analyze video content", false)
  | frame :: _ =>
    match model frame with
    | Except.ok t => (pyStrip t, true)
    | Except.error _ => (pyOf "Video content analysis unavailable", true)

/-- Model of generate_title (lines 83–104): on success the response
text is trimmed and then every double-quote character and every
single-quote character is deleted; on any exception the literal
fallback title is returned. -/
def generate_title (resp : Except Unit (List Char)) : List Char :=
  match resp with
  | Except.ok t => pyReplaceAll [squoteChar] (pyReplaceAll [dquoteChar] (pyStrip t))
  | Except.error _ => pyOf "Amazing Video Content"

/-- The static fallback document of `_fallback_description` (lines 130–147). -/
def fallback_description : List Char :=
  pyOf "Amazing video content that will keep you entertained!\nWatch this incredible moment captured on video.\nPerfect for sharing with friends and family.\nDon\x27t forget to like and subscribe for more content.\nThis video showcases some really cool stuff.\nYou won\x27t believe what happens in this video.\nMake sure to watch until the end.\nComment below what you think about this.\nShare this video if you enjoyed it.\nThanks for watching our content!\n\nKeywords: viral video, trending content, amazing moments, entertainment, social media, short video, funny clips, must watch, incredible, awesome, cool stuff, viral clips, trending now, popular video, engaging content, shareable, entertaining, video content, social sharing, watch now\n\nHashtags: #shorts #viral #trending #amazing #entertainment #video #content #socialmedia #funny #cool #awesome #mustwatch #incredible #popular #engaging #shareable #entertaining #videooftheday #trend #viral2024 #shortsvideo #viralshorts #trendingshorts #amazingvideo #viralcontent #shortsfeed #explore #fyp #foryou #viralmoment\n\n⚠️ Copyright Disclaimer: This content is used for educational and entertainment purposes. All rights belong to their respective owners. If you are the owner and want this removed, please contact us."

/-- Model of generate_description (lines 106–128): the trimmed response
text on success, the static fallback document on any exception. -/
def generate_description (resp : Except Unit (List Char)) : List Char :=
  match resp with
  | Except.ok t => pyStrip t
  | Except.error _ => fallback_description

/-- The metadata dictionary assembled at lines 178–186. -/
structure Metadata where
  video_analysis : List Char
  title : List Char
  description : List Char
  tags : List (List Char)
  hashtags : List (List Char)
  keywords : List (List Char)
  generated_at : List Char
  deriving DecidableEq, Repr

/-- Oracle for one whole pipeline run: the video-capture environment, the
three generative-model calls (each fed the text it receives in the
source), and `datetime.now().isoformat()`. -/
structure GenEnv (α : Type) where
  fenv : FrameEnv α
  analyzeModel : α → Except Unit (List Char)
  titleModel : List Char → Except Unit (List Char)
  descModel : List Char → Except Unit (List Char)
  now : List Char

/-- Model of generate_complete_metadata (lines 149–188). -/
def generate_complete_metadata {α : Type} (env : GenEnv α) : Metadata :=
  let va := (analyze_video_content env.fenv env.analyzeModel).1
  let title := generate_title (env.titleModel va)
  let description := generate_description (env.descModel va)
  let p := parseDescription description
  ⟨va, title, description, p.tags, p.hashtags, p.keywords, env.now⟩

/-- A capture whose conversion stage raises: the handle is acquired but
`cap.release()` is never reached. -/
def envNoRelease : FrameEnv Unit :=
  ⟨Except.ok 1, fun _ => Except.ok (some ()), fun _ => Except.error ()⟩

/-- A 30-frame capture on which every seek/decode and conversion
succeeds; frames are identified by their frame index. -/
def envCam30 : FrameEnv Nat :=
  ⟨Except.ok 30, fun p => Except.ok (some p), fun f => Except.ok f⟩

/-- A capture that opens with zero frames and decodes nothing. -/
def envEmptyVid : FrameEnv Unit :=
  ⟨Except.ok 0, fun _ => Except.ok none, fun f => Except.ok f⟩

/-- Pipeline oracle in which every model call raises. -/
def envAllFail : GenEnv Unit :=
  ⟨envEmptyVid, fun _ => Except.error (), fun _ => Except.error (),
   fun _ => Except.error (), pyOf "2025-01-01T00:00:00"⟩

/-- Pipeline oracle in which the title and description calls succeed but
return empty text. -/
def envEmptyText : GenEnv Unit :=
  ⟨envEmptyVid, fun _ => Except.error (), fun _ => Except.ok [],
   fun _ => Except.ok [], pyOf "2025-01-01T00:00:00"⟩

/-! ### Helper lemmas -/

theorem replaceAllF_nil (pat : List Char) (n : Nat) : replaceAllF pat n [] = [] := by
  cases n <;> rfl

theorem replaceAllF_congr (pat : List Char) :
    ∀ (n : Nat) (m : Nat) (l : List Char), l.length ≤ n → l.length ≤ m →
      replaceAllF pat n l = replaceAllF pat m l := by
  intro n
  induction n with
  | zero =>
    intro m l hn _
    have : l = [] := List.eq_nil_of_length_eq_zero (Nat.le_zero.mp hn)
    subst this
    simp [replaceAllF_nil]
  | succ n ih =>
    intro m l hn hm
    cases l with
    | nil => simp [replaceAllF_nil]
    | cons a rest =>
      cases m with
      | zero => exact absurd hm (by simp)
      | succ m =>
        show replaceAllF pat (n + 1) (a :: rest) = replaceAllF pat (m + 1) (a :: rest)
        simp only [replaceAllF]
        by_cases h : (pyStartsWith pat (a :: rest) && !pat.isEmpty) = true
        · simp only [h, if_true]
          apply ih
          · calc (rest.drop (pat.length - 1)).length ≤ rest.length := by
                  simp [List.length_drop]
              _ ≤ n := Nat.le_of_succ_le_succ (by simpa using hn)
          · calc (rest.drop (pat.length - 1)).length ≤ rest.length := by
                  simp [List.length_drop]
              _ ≤ m := Nat.le_of_succ_le_succ (by simpa using hm)
        · have h1 : rest.length ≤ n := Nat.le_of_succ_le_succ (by simpa using hn)
          have h2 : rest.length ≤ m := Nat.le_of_succ_le_succ (by simpa using hm)
          rw [if_neg h, if_neg h, ih m rest h1 h2]

theorem pyStartsWith_append (p r : List Char) : pyStartsWith p (p ++ r) = true := by
  induction p with
  | nil => rfl
  | cons a p ih => simp [pyStartsWith, ih]

theorem pyReplaceAll_cancel (k : Char) (kt r : List Char) :
    pyReplaceAll (k :: kt) ((k :: kt) ++ r) = pyReplaceAll (k :: kt) r := by
  show replaceAllF (k :: kt) ((k :: kt) ++ r).length ((k :: kt) ++ r) = _
  have hlen : ((k :: kt) ++ r).length = (kt ++ r).length + 1 := by simp
  rw [hlen]
  show (if pyStartsWith (k :: kt) (k :: (kt ++ r)) && !(k :: kt).isEmpty then
          replaceAllF (k :: kt) ((kt ++ r).length) ((kt ++ r).drop ((k :: kt).length - 1))
        else
          k :: replaceAllF (k :: kt) ((kt ++ r).length) (kt ++ r)) = _
  have hsw : pyStartsWith (k :: kt) (k :: (kt ++ r)) = true := pyStartsWith_append (k :: kt) r
  rw [hsw]
  simp only [List.isEmpty_cons, Bool.not_false, Bool.and_true, if_true]
  have hdrop : (kt ++ r).drop ((k :: kt).length - 1) = r := by
    simp only [List.length_cons, Nat.add_sub_cancel]
    exact List.drop_left kt r
  rw [hdrop]
  exact replaceAllF_congr (k :: kt) ((kt ++ r).length) r.length r (by simp) (Nat.le_refl _)

theorem replaceAllF_single (c : Char) :
    ∀ (n : Nat) (l : List Char), l.length ≤ n →
      replaceAllF [c] n l = l.filter (fun x => !(x == c)) := by
  intro n
  induction n with
  | zero =>
    intro l hn
    have : l = [] := List.eq_nil_of_length_eq_zero (Nat.le_zero.mp hn)
    subst this; rfl
  | succ n ih =>
    intro l hn
    cases l with
    | nil => rfl
    | cons a rest =>
      have hr : rest.length ≤ n := Nat.le_of_succ_le_succ (by simpa using hn)
      show (if pyStartsWith [c] (a :: rest) && !(List.isEmpty [c]) then
              replaceAllF [c] n (rest.drop (List.length [c] - 1))
            else a :: replaceAllF [c] n rest) = _
      have hsw : pyStartsWith [c] (a :: rest) = (c == a) := by
        simp [pyStartsWith]
      rw [hsw]
      by_cases h : c = a
      · subst h
        simp only [beq_self_eq_true, List.isEmpty_cons, Bool.not_false, Bool.and_true, if_true]
        rw [show [c].length - 1 = 0 from rfl, List.drop_zero, ih rest hr]
        simp [List.filter_cons]
      · have hb : (c == a) = false := beq_eq_false_iff_ne.mpr h
        rw [hb]
        simp only [Bool.false_and, if_false]
        rw [ih rest hr]
        have : (a == c) = false := beq_eq_false_iff_ne.mpr (fun he => h he.symm)
        simp [List.filter_cons, this]

theorem pyReplaceAll_single (c : Char) (l : List Char) :
    pyReplaceAll [c] l = l.filter (fun x => !(x == c)) :=
  replaceAllF_single c l.length l (Nat.le_refl _)

theorem dropWhile_append_sing (p : Char → Bool) (c : Char) (hc : p c = false) :
    ∀ a : List Char, ∃ b, (a ++ [c]).dropWhile p = b ++ [c] := by
  intro a
  induction a with
  | nil => exact ⟨[], by simp [List.dropWhile, hc]⟩
  | cons x a ih =>
    by_cases hx : p x = true
    · obtain ⟨b, hb⟩ := ih
      exact ⟨b, by simp [List.dropWhile, hx, hb]⟩
    · exact ⟨x :: a, by simp [List.dropWhile, hx]⟩

theorem pyStrip_cons (c : Char) (l : List Char) (hc : pyIsSpace c = false) :
    ∃ m, pyStrip (c :: l) = c :: m := by
  unfold pyStrip
  rw [List.dropWhile_cons_of_neg (by simp [hc])]
  rw [List.reverse_cons]
  obtain ⟨b, hb⟩ := dropWhile_append_sing pyIsSpace c hc l.reverse
  exact ⟨b.reverse, by rw [hb]; simp⟩

theorem splitOnPred_ne_nil (p : Char → Bool) (l : List Char) :
    splitOnPred p l ≠ [] := by
  cases l with
  | nil => simp [splitOnPred]
  | cons c rest =>
    simp only [splitOnPred]
    split <;> simp

theorem splitOnPred_append (p : Char → Bool) (c : Char) (hc : p c = true)
    (b : List Char) : ∀ a : List Char,
    splitOnPred p (a ++ c :: b) = splitOnPred p a ++ splitOnPred p b := by
  intro a
  induction a with
  | nil => simp [splitOnPred, hc]
  | cons x a ih =>
    show splitOnPred p (x :: (a ++ c :: b)) = _
    simp only [splitOnPred, ih]
    obtain ⟨h, t, hht⟩ := List.exists_cons_of_ne_nil (splitOnPred_ne_nil p a)
    rw [hht]
    by_cases hx : p x = true
    · simp [hx]
    · simp [hx]

theorem splitOnPred_no_sep (p : Char → Bool) :
    ∀ l : List Char, (∀ x ∈ l, p x = false) → splitOnPred p l = [l] := by
  intro l
  induction l with
  | nil => intro _; rfl
  | cons c rest ih =>
    intro h
    have hc : p c = false := h c (List.mem_cons_self c rest)
    have hrest : splitOnPred p rest = [rest] :=
      ih (fun x hx => h x (List.mem_cons_of_mem c hx))
    simp [splitOnPred, hc, hrest]

theorem foldl_processLine_inv (P : ParseState → Prop)
    (hstep : ∀ st l, P st → P (processLine st l)) :
    ∀ (ls : List (List Char)) (st : ParseState), P st →
      P (List.foldl processLine st ls) := by
  intro ls
  induction ls with
  | nil => intro st h; exact h
  | cons l ls ih => intro st h; exact ih (processLine st l) (hstep st l h)

theorem pyStartsWith_cons_iff (a : Char) (p : List Char) (l : List Char) :
    pyStartsWith (a :: p) l = true ↔
      ∃ l', l = a :: l' ∧ pyStartsWith p l' = true := by
  cases l with
  | nil => simp [pyStartsWith]
  | cons b l' =>
    simp only [pyStartsWith, Bool.and_eq_true, beq_iff_eq]
    constructor
    · rintro ⟨rfl, h⟩; exact ⟨l', rfl, h⟩
    · rintro ⟨l'', he, h⟩
      cases he
      exact ⟨rfl, h⟩

theorem kwLabel_eq : kwLabel = Char.ofNat 75 :: pyOf "eywords:" := rfl

theorem hashLabel_eq : hashLabel = Char.ofNat 72 :: pyOf "ashtags:" := rfl

theorem kw_not_hash (l : List Char) (h : pyStartsWith kwLabel l = true) :
    pyStartsWith hashLabel l = false := by
  rw [kwLabel_eq, pyStartsWith_cons_iff] at h
  obtain ⟨l', rfl, _⟩ := h
  rw [hashLabel_eq]
  simp [pyStartsWith]

theorem processLine_kw (st : ParseState) (l : List Char)
    (h : pyStartsWith kwLabel l = true) :
    processLine st l = { st with keywords := kwOfLine l, tags := (kwOfLine l).take 15 } := by
  unfold processLine
  rw [kw_not_hash l h, h]
  simp

theorem processLine_hash (st : ParseState) (l : List Char)
    (h : pyStartsWith hashLabel l = true) :
    processLine st l = { st with hashtags := tagOfLine l } := by
  unfold processLine
  rw [h]
  simp

theorem extractLoopIdx_map (α : Type) (decode : Nat → α) (conv : α → α)
    (fc nf : Nat) : ∀ (is : List Nat) (acc : List α),
    extractLoopIdx (⟨Except.ok fc, fun p => Except.ok (some (decode p)),
        fun f => Except.ok (conv f)⟩ : FrameEnv α) fc nf is acc
      = Except.ok (acc ++ is.map (fun i => conv (decode ((i + 1) * fc / (nf + 1))))) := by
  intro is
  induction is with
  | nil => intro acc; simp [extractLoopIdx]
  | cons i is ih =>
    intro acc
    have hstep : extractLoopIdx (⟨Except.ok fc, fun p => Except.ok (some (decode p)),
        fun f => Except.ok (conv f)⟩ : FrameEnv α) fc nf (i :: is) acc
        = extractLoopIdx (⟨Except.ok fc, fun p => Except.ok (some (decode p)),
            fun f => Except.ok (conv f)⟩ : FrameEnv α) fc nf is
            (acc ++ [conv (decode ((i + 1) * fc / (nf + 1)))]) := rfl
    rw [hstep, ih (acc ++ [conv (decode ((i + 1) * fc / (nf + 1)))])]
    simp

theorem extractLoopIdx_isOk (α : Type) (env : FrameEnv α) (fc nf : Nat)
    (hseek : ∀ p, ∃ o, env.seekRead p = Except.ok o)
    (hconv : ∀ f, ∃ g, env.convert f = Except.ok g) :
    ∀ (is : List Nat) (acc : List α),
      ∃ fs, extractLoopIdx env fc nf is acc = Except.ok fs := by
  intro is
  induction is with
  | nil => intro acc; exact ⟨acc, rfl⟩
  | cons i is ih =>
    intro acc
    obtain ⟨o, ho⟩ := hseek ((i + 1) * fc / (nf + 1))
    rw [extractLoopIdx]
    rw [ho]
    cases o with
    | none => exact ih acc
    | some fr =>
      obtain ⟨g, hg⟩ := hconv fr
      show ∃ fs, (match env.convert fr with
        | Except.error e => Except.error e
        | Except.ok f => extractLoopIdx env fc nf is (acc ++ [f])) = Except.ok fs
      rw [hg]
      exact ih (acc ++ [g])

/-! ### Claim theorems -/

/-- Claim C2: for every DescriptionDocument string the assembled record
satisfies `tags == keywords[:15]`, hence `len(tags) <= 15` and `tags` is a
prefix of `keywords`; this holds both when a `Keywords:` line is present
and when it is absent (in which case both lists are empty), and the
record assembled by `generate_complete_metadata` satisfies the same
equation. -/
theorem assembler_tags_take15 :
    (∀ d : List Char,
       (parseDescription d).tags = (parseDescription d).keywords.take 15 ∧
       (parseDescription d).tags.length ≤ 15) ∧
    (∀ d : List Char,
       (∀ l ∈ splitOnChar newlineChar d, pyStartsWith kwLabel l = false) →
       (parseDescription d).keywords = [] ∧ (parseDescription d).tags = []) ∧
    (∀ (α : Type) (env : GenEnv α),
       (generate_complete_metadata env).tags
         = (generate_complete_metadata env).keywords.take 15) := by
  have step : ∀ st l, st.tags = st.keywords.take 15 →
      (processLine st l).tags = (processLine st l).keywords.take 15 := by
    intro st l h
    unfold processLine
    by_cases h1 : pyStartsWith hashLabel l = true
    · simp [h1, h]
    · by_cases h2 : pyStartsWith kwLabel l = true
      · simp [h1, h2]
      · simp [h1, h2, h]
  have inv : ∀ d : List Char,
      (parseDescription d).tags = (parseDescription d).keywords.take 15 := by
    intro d
    exact foldl_processLine_inv (fun st => st.tags = st.keywords.take 15)
      step (splitOnChar newlineChar d) initState rfl
  have inv2 : ∀ (ls : List (List Char)) (st : ParseState),
      (∀ l ∈ ls, pyStartsWith kwLabel l = false) →
      (List.foldl processLine st ls).keywords = st.keywords ∧
      (List.foldl processLine st ls).tags = st.tags := by
    intro ls
    induction ls with
    | nil => intro st _; exact ⟨rfl, rfl⟩
    | cons l ls ih =>
      intro st h
      have hl : pyStartsWith kwLabel l = false := h l (List.mem_cons_self _ _)
      have hrest := ih (processLine st l) (fun x hx => h x (List.mem_cons_of_mem _ hx))
      have hpl : (processLine st l).keywords = st.keywords ∧
          (processLine st l).tags = st.tags := by
        unfold processLine
        by_cases h1 : pyStartsWith hashLabel l = true
        · simp [h1]
        · simp [h1, hl]
      exact ⟨hrest.1.trans hpl.1, hrest.2.trans hpl.2⟩
  refine ⟨fun d => ⟨inv d, ?_⟩, fun d h => inv2 _ initState h, fun α env => inv _⟩
  rw [inv d]
  calc ((parseDescription d).keywords.take 15).length
      ≤ 15 := by simp [List.length_take]

/-- Witness for C2 at a document with no label lines. -/
theorem assembler_tags_take15_witness :
    (parseDescription (pyOf "hello world")).keywords = [] ∧
    (parseDescription (pyOf "hello world")).tags = [] :=
  assembler_tags_take15.2.1 (pyOf "hello world") (by decide)

/-- Claim C5: every element of the parsed hashtags list starts with the
marker character `#`, and every token that does not start with `#` is
absent from the list. -/
theorem hashtags_marker_only (d : List Char) :
    (∀ t ∈ (parseDescription d).hashtags, pyStartsWith hashMark t = true) ∧
    (∀ t : List Char, pyStartsWith hashMark t = false →
        t ∉ (parseDescription d).hashtags) := by
  have inv : ∀ t ∈ (parseDescription d).hashtags, pyStartsWith hashMark t = true := by
    refine foldl_processLine_inv
      (fun st => ∀ t ∈ st.hashtags, pyStartsWith hashMark t = true) ?_
      (splitOnChar newlineChar d) initState (by intro t ht; simp [initState] at ht)
    intro st l h
    unfold processLine
    by_cases h1 : pyStartsWith hashLabel l = true
    · simp only [h1, if_true]
      intro t ht
      simp only [tagOfLine, List.mem_map] at ht
      obtain ⟨x, hx, rfl⟩ := ht
      have hxs : pyStartsWith hashMark x = true := (List.mem_filter.mp hx).2
      have hm : hashMark = Char.ofNat 35 :: [] := rfl
      rw [hm, pyStartsWith_cons_iff] at hxs
      obtain ⟨x', rfl, _⟩ := hxs
      obtain ⟨m, hmm⟩ := pyStrip_cons (Char.ofNat 35) x' (by decide)
      rw [hmm, hm, pyStartsWith_cons_iff]
      exact ⟨m, rfl, rfl⟩
    · by_cases h2 : pyStartsWith kwLabel l = true
      · simp only [h1, if_false, h2, if_true]
        exact h
      · simp only [h1, if_false, h2]
        exact h
  refine ⟨inv, fun t hts hmem => ?_⟩
  rw [inv t hmem] at hts
  exact Bool.noConfusion hts

/-- Witness for C5: the bare token `x` of the `Hashtags:` line is not
retained. -/
theorem hashtags_marker_only_witness :
    pyOf "x" ∉ (parseDescription (pyOf "Hashtags: x #y")).hashtags :=
  (hashtags_marker_only (pyOf "Hashtags: x #y")).2 (pyOf "x") (by decide)

/-- Claim C9: the comma segments of a `Keywords:` line are kept verbatim
(after trimming) with no empty-segment filtering, so `keywords` — and
hence `tags` — can contain empty strings; an empty remainder yields the
one-element list containing the empty string. -/
theorem keywords_empty_segments_kept (r : List Char)
    (hnl : ∀ c ∈ r, (c == newlineChar) = false)
    (hno : pyReplaceAll kwLabel r = r) :
    (parseDescription (kwLabel ++ r)).keywords
        = (splitOnChar commaChar (pyStrip r)).map pyStrip ∧
    (parseDescription (kwLabel ++ r)).tags
        = ((splitOnChar commaChar (pyStrip r)).map pyStrip).take 15 := by
  have hkw : ∀ x ∈ kwLabel, (x == newlineChar) = false := by decide
  have hall : ∀ x ∈ kwLabel ++ r, (x == newlineChar) = false := by
    intro x hx
    rcases List.mem_append.mp hx with h | h
    · exact hkw x h
    · exact hnl x h
  have hsplit : splitOnChar newlineChar (kwLabel ++ r) = [kwLabel ++ r] :=
    splitOnPred_no_sep _ _ hall
  have hrepl : pyReplaceAll kwLabel (kwLabel ++ r) = r := by
    rw [kwLabel_eq, pyReplaceAll_cancel, ← kwLabel_eq, hno]
  have hparse : parseDescription (kwLabel ++ r)
      = processLine initState (kwLabel ++ r) := by
    unfold parseDescription
    rw [show splitOnChar newlineChar (kwLabel ++ r) = [kwLabel ++ r] from hsplit]
    rfl
  rw [hparse, processLine_kw _ _ (pyStartsWith_append kwLabel r)]
  constructor
  · show kwOfLine (kwLabel ++ r) = _
    unfold kwOfLine
    rw [hrepl]
  · show (kwOfLine (kwLabel ++ r)).take 15 = _
    unfold kwOfLine
    rw [hrepl]

/-- Witness for C9: an empty remainder gives `[""]`, and trailing/double
commas give empty entries. -/
theorem keywords_empty_segments_kept_witness :
    (parseDescription (kwLabel ++ ([] : List Char))).keywords = [[]] ∧
    (parseDescription (kwLabel ++ pyOf " a,,b,")).keywords
      = [pyOf "a", [], pyOf "b", []] :=
  ⟨((keywords_empty_segments_kept [] (by decide) (by decide)).1).trans (by decide),
   ((keywords_empty_segments_kept (pyOf " a,,b,") (by decide) (by decide)).1).trans
     (by decide)⟩

/-- Claim C10: when several `Keywords:` (resp. `Hashtags:`) lines occur,
the parsed lists come entirely from the last such line — whatever the
earlier document contains, appending one more matching line overwrites
the result. -/
theorem last_label_line_wins (d l lh : List Char)
    (hk : pyStartsWith kwLabel l = true)
    (hnlk : ∀ c ∈ l, (c == newlineChar) = false)
    (hh : pyStartsWith hashLabel lh = true)
    (hnlh : ∀ c ∈ lh, (c == newlineChar) = false) :
    (parseDescription (d ++ newlineChar :: l)).keywords = kwOfLine l ∧
    (parseDescription (d ++ newlineChar :: l)).tags = (kwOfLine l).take 15 ∧
    (parseDescription (d ++ newlineChar :: lh)).hashtags = tagOfLine lh := by
  have hsp1 : splitOnChar newlineChar (d ++ newlineChar :: l)
      = splitOnChar newlineChar d ++ splitOnChar newlineChar l :=
    splitOnPred_append _ newlineChar (by decide) l d
  have hsp2 : splitOnChar newlineChar (d ++ newlineChar :: lh)
      = splitOnChar newlineChar d ++ splitOnChar newlineChar lh :=
    splitOnPred_append _ newlineChar (by decide) lh d
  have hsl : splitOnChar newlineChar l = [l] := splitOnPred_no_sep _ l hnlk
  have hslh : splitOnChar newlineChar lh = [lh] := splitOnPred_no_sep _ lh hnlh
  refine ⟨?_, ?_, ?_⟩
  · unfold parseDescription
    rw [hsp1, hsl, List.foldl_append]
    simp only [List.foldl_cons, List.foldl_nil]
    rw [processLine_kw _ _ hk]
  · unfold parseDescription
    rw [hsp1, hsl, List.foldl_append]
    simp only [List.foldl_cons, List.foldl_nil]
    rw [processLine_kw _ _ hk]
  · unfold parseDescription
    rw [hsp2, hslh, List.foldl_append]
    simp only [List.foldl_cons, List.foldl_nil]
    rw [processLine_hash _ _ hh]

/-- Witness for C10: of two `Keywords:` lines the second one wins. -/
theorem last_label_line_wins_witness :
    (parseDescription (pyOf "Keywords: a,b" ++ newlineChar :: pyOf "Keywords: c")).keywords
      = [pyOf "c"] := by
  have h := last_label_line_wins (pyOf "Keywords: a,b") (pyOf "Keywords: c")
    (pyOf "Hashtags: #x") (by decide) (by decide) (by decide) (by decide)
  exact h.1.trans (by decide)

set_option maxRecDepth 10000 in
/-- Claim C4: parsing the static fallback DescriptionDocument yields
exactly the 20 keyword terms and exactly the 30 hashtag tokens literally
present in its text (including `#shorts`, `#viral`, `#trending`). -/
theorem fallback_description_counts :
    (parseDescription fallback_description).keywords.length = 20 ∧
    (parseDescription fallback_description).hashtags.length = 30 ∧
    (parseDescription fallback_description).keywords =
      [pyOf "viral video", pyOf "trending content", pyOf "amazing moments",
       pyOf "entertainment", pyOf "social media", pyOf "short video",
       pyOf "funny clips", pyOf "must watch", pyOf "incredible",
       pyOf "awesome", pyOf "cool stuff", pyOf "viral clips",
       pyOf "trending now", pyOf "popular video", pyOf "engaging content",
       pyOf "shareable", pyOf "entertaining", pyOf "video content",
       pyOf "social sharing", pyOf "watch now"] ∧
    (parseDescription fallback_description).hashtags =
      [pyOf "#shorts", pyOf "#viral", pyOf "#trending", pyOf "#amazing",
       pyOf "#entertainment", pyOf "#video", pyOf "#content",
       pyOf "#socialmedia", pyOf "#funny", pyOf "#cool", pyOf "#awesome",
       pyOf "#mustwatch", pyOf "#incredible", pyOf "#popular",
       pyOf "#engaging", pyOf "#shareable", pyOf "#entertaining",
       pyOf "#videooftheday", pyOf "#trend", pyOf "#viral2024",
       pyOf "#shortsvideo", pyOf "#viralshorts", pyOf "#trendingshorts",
       pyOf "#amazingvideo", pyOf "#viralcontent", pyOf "#shortsfeed",
       pyOf "#explore", pyOf "#fyp", pyOf "#foryou", pyOf "#viralmoment"] := by
  refine ⟨?_, ?_, ?_, ?_⟩ <;> decide

/-- Claim C3: when the video opens with `T` total frames, `T ≥ N + 1`,
and every seek/decode and conversion succeeds, `extract_video_frames`
returns exactly the `N` frames decoded at zero-based positions
`(i + 1) * T / (N + 1)` for `i = 0 .. N - 1` (and the handle is
released). -/
theorem extract_video_frames_positions (α : Type) (decode : Nat → α)
    (conv : α → α) (T N : Nat) (_h : N + 1 ≤ T) :
    extract_video_frames (⟨Except.ok T, fun p => Except.ok (some (decode p)),
        fun f => Except.ok (conv f)⟩ : FrameEnv α) N
      = ((List.range N).map (fun i => conv (decode ((i + 1) * T / (N + 1)))), true) ∧
    (extract_video_frames (⟨Except.ok T, fun p => Except.ok (some (decode p)),
        fun f => Except.ok (conv f)⟩ : FrameEnv α) N).1.length = N := by
  have hmain : extract_video_frames (⟨Except.ok T, fun p => Except.ok (some (decode p)),
      fun f => Except.ok (conv f)⟩ : FrameEnv α) N
      = ((List.range N).map (fun i => conv (decode ((i + 1) * T / (N + 1)))), true) := by
    have hstep : extract_video_frames (⟨Except.ok T, fun p => Except.ok (some (decode p)),
        fun f => Except.ok (conv f)⟩ : FrameEnv α) N
        = (match extractLoopIdx (⟨Except.ok T, fun p => Except.ok (some (decode p)),
              fun f => Except.ok (conv f)⟩ : FrameEnv α) T N (List.range N) [] with
           | Except.ok frames => (frames, true)
           | Except.error _ => ([], false)) := rfl
    rw [hstep, extractLoopIdx_map α decode conv T N (List.range N) []]
    simp
  exact ⟨hmain, by rw [hmain]; simp⟩

/-- Witness for C3: a 30-frame video sampled with `N = 3` yields the
frames at positions 7, 15 and 22. -/
theorem extract_video_frames_positions_witness :
    (extract_video_frames (⟨Except.ok 30, fun p => Except.ok (some (id p)),
        fun f => Except.ok (id f)⟩ : FrameEnv Nat) 3).1 = [7, 15, 22] := by
  rw [(extract_video_frames_positions Nat id id 30 3 (by decide)).1]
  decide

/-- Claim C7 counterexample: a capture whose frame conversion raises is
an exit path on which the handle is not released —
`extract_video_frames` swallows the exception and returns `[]` with the
release flag still `false`. -/
theorem extract_video_frames_no_release_cex :
    extract_video_frames envNoRelease 1 = (([] : List Unit), false) := by decide

/-- Claim C7 amended: the capture handle is released exactly on the
normal path — every exit either has the handle released or is the
exception path returning `([], unreleased)`; when frame counting and
every seek/decode and conversion succeed, the handle is released. -/
theorem extract_video_frames_release (α : Type) (env : FrameEnv α) (n : Nat) :
    ((extract_video_frames env n).2 = true ∨
      extract_video_frames env n = ([], false)) ∧
    (∀ fc, env.frameCount = Except.ok fc →
      (∀ p, ∃ o, env.seekRead p = Except.ok o) →
      (∀ f, ∃ g, env.convert f = Except.ok g) →
      (extract_video_frames env n).2 = true) := by
  have hstep : ∀ fc, env.frameCount = Except.ok fc →
      extract_video_frames env n
      = (match extractLoopIdx env fc n (List.range n) [] with
         | Except.ok frames => (frames, true)
         | Except.error _ => ([], false)) := by
    intro fc hfc
    unfold extract_video_frames
    rw [hfc]
  have herr : ∀ e, env.frameCount = Except.error e →
      extract_video_frames env n = ([], false) := by
    intro e hfc
    unfold extract_video_frames
    rw [hfc]
  constructor
  · cases hfc : env.frameCount with
    | error e => exact Or.inr (herr e hfc)
    | ok fc =>
      rw [hstep fc hfc]
      cases hl : extractLoopIdx env fc n (List.range n) [] with
      | error e => exact Or.inr rfl
      | ok frames => exact Or.inl rfl
  · intro fc hfc hseek hconv
    obtain ⟨fs, hfs⟩ := extractLoopIdx_isOk α env fc n hseek hconv (List.range n) []
    rw [hstep fc hfc, hfs]

/-- Witness for the amended C7: on an all-succeeding capture the
handle is released. -/
theorem extract_video_frames_release_witness :
    (extract_video_frames envCam30 2).2 = true :=
  (extract_video_frames_release Nat envCam30 2).2 30 rfl
    (fun p => ⟨some p, rfl⟩) (fun f => ⟨f, rfl⟩)

/-- Claim C8: `analyze_video_content` returns the fixed sentinel
`"Unable to analyze video content"` without invoking the model when
frame extraction yields no frames, returns the distinct fixed sentinel
`"Video content analysis unavailable"` when the model invocation
raises, and in both cases returns normally. -/
theorem analyze_video_content_sentinels (α : Type) (env : FrameEnv α)
    (model : α → Except Unit (List Char)) :
    ((extract_video_frames env 2).1 = [] →
      analyze_video_content env model
        = (pyOf "Unable to analyze video content", false)) ∧
    (∀ f fs, (extract_video_frames env 2).1 = f :: fs →
      model f = Except.error () →
      analyze_video_content env model
        = (pyOf "Video content analysis unavailable", true)) ∧
    pyOf "Unable to analyze video content"
      ≠ pyOf "Video content analysis unavailable" := by
  refine ⟨?_, ?_, by decide⟩
  · intro h
    unfold analyze_video_content
    rw [h]
  · intro f fs hf hm
    unfold analyze_video_content
    rw [hf]
    show (match model f with
      | Except.ok t => (pyStrip t, true)
      | Except.error _ => (pyOf "Video content analysis unavailable", true)) = _
    rw [hm]

/-- Witness for C8: a zero-frame video yields the no-frame sentinel. -/
theorem analyze_video_content_sentinels_witness :
    analyze_video_content envEmptyVid (fun _ => Except.error ())
      = (pyOf "Unable to analyze video content", false) :=
  (analyze_video_content_sentinels Unit envEmptyVid
    (fun _ => Except.error ())).1 (by decide)

/-- Claim C6 counterexample: on the response text `say "hi" now`, which
carries no surrounding quotes, `generate_title` deletes the interior
double quotes instead of preserving them. -/
theorem generate_title_interior_quote_cex :
    generate_title (Except.ok (pyOf "say \x22hi\x22 now")) = pyOf "say hi now" ∧
    pyOf "say hi now" ≠ pyOf "say \x22hi\x22 now" :=
  ⟨by decide, by decide⟩

/-- Claim C6 amended: `generate_title` returns the model response
trimmed with every double-quote and single-quote character removed,
interior occurrences included; on model error it returns the fixed
literal title `"Amazing Video Content"`. -/
theorem generate_title_removes_all_quotes :
    (∀ r : List Char, generate_title (Except.ok r)
        = ((pyStrip r).filter (fun c => !(c == dquoteChar))).filter
            (fun c => !(c == squoteChar))) ∧
    generate_title (Except.error ()) = pyOf "Amazing Video Content" := by
  refine ⟨fun r => ?_, rfl⟩
  show pyReplaceAll [squoteChar] (pyReplaceAll [dquoteChar] (pyStrip r)) = _
  rw [pyReplaceAll_single, pyReplaceAll_single]

/-- Claim C1 counterexample: when the title model call succeeds but
returns empty text, the title field of the assembled record is the empty string —
the record is not non-empty-titled for every model behaviour. -/
theorem metadata_empty_title_cex :
    (generate_complete_metadata envEmptyText).title = [] := by decide

/-- Claim C1 amended: `generate_complete_metadata` always assembles a
complete record (its `generated_at` field is the assembly timestamp and
no exception escapes any stage); a model error in the title or
description stage is replaced by the corresponding non-empty fixed
fallback, and the title (resp. description) can only be empty when the
model call succeeded with text that is empty after trimming and quote
removal (resp. after trimming). -/
theorem generate_complete_metadata_population (α : Type) (env : GenEnv α) :
    (generate_complete_metadata env).generated_at = env.now ∧
    (env.titleModel (generate_complete_metadata env).video_analysis
        = Except.error () →
      (generate_complete_metadata env).title = pyOf "Amazing Video Content") ∧
    (env.descModel (generate_complete_metadata env).video_analysis
        = Except.error () →
      (generate_complete_metadata env).description = fallback_description ∧
      (generate_complete_metadata env).description ≠ []) ∧
    ((generate_complete_metadata env).title = [] →
      ∃ r, env.titleModel (generate_complete_metadata env).video_analysis
          = Except.ok r ∧
        pyReplaceAll [squoteChar] (pyReplaceAll [dquoteChar] (pyStrip r)) = []) ∧
    ((generate_complete_metadata env).description = [] →
      ∃ r, env.descModel (generate_complete_metadata env).video_analysis
          = Except.ok r ∧ pyStrip r = []) := by
  have htitle : (generate_complete_metadata env).title
      = generate_title (env.titleModel
          (generate_complete_metadata env).video_analysis) := rfl
  have hdesc : (generate_complete_metadata env).description
      = generate_description (env.descModel
          (generate_complete_metadata env).video_analysis) := rfl
  refine ⟨rfl, ?_, ?_, ?_, ?_⟩
  · intro he
    rw [htitle, he]
    rfl
  · intro he
    rw [hdesc, he]
    exact ⟨rfl, by decide⟩
  · intro he
    rw [htitle] at he
    cases hm : env.titleModel (generate_complete_metadata env).video_analysis with
    | ok r =>
      rw [hm] at he
      exact ⟨r, rfl, he⟩
    | error e =>
      cases e
      rw [hm] at he
      exact absurd he (by decide)
  · intro he
    rw [hdesc] at he
    cases hm : env.descModel (generate_complete_metadata env).video_analysis with
    | ok r =>
      rw [hm] at he
      exact ⟨r, rfl, he⟩
    | error e =>
      cases e
      rw [hm] at he
      exact absurd he (by decide)

/-- Witness for the amended C1: with every model call failing
the description is the non-empty fallback document. -/
theorem generate_complete_metadata_population_witness :
    (generate_complete_metadata envAllFail).description = fallback_description ∧
    (generate_complete_metadata envAllFail).description ≠ [] :=
  (generate_complete_metadata_population Unit envAllFail).2.2.1 rfl

end YtAuto
